import Mathlib

/-!
Verification of the l2beat discovery core against its specification.

Shallow embedding of:
* `decodeLastEvent` from
  `packages/discovery/src/discovery/handlers/user/ArbitrumDACKeysetHandler.ts`
* `discoverWithRetry`, `run`, `updateInitialAddresses`, `discover` and
  `setProviderGauge` / `setDiscoveryMetrics` from
  `packages/backend/src/modules/update-monitor/DiscoveryRunner.ts`

Machine numbers are modelled as `Nat`/`Int`/`ℚ`; byte strings as `List Nat`;
fallible code returns `Except`; effect order (log lines, sleeps, metric
emissions) is modelled as explicit event traces.
-/

namespace L2beat

deriving instance DecidableEq for Except

/-! ## Byte-string primitives

`Bytes` lives in `@l2beat/shared-pure`, outside the provided sources, so its
operations are modelled from the spec's wording. -/

/-- Modelled from the spec: `Bytes.slice(start, end)` JavaScript-style slice of
a byte string — elements with index in `[s, e)`, truncated at the end of the
buffer (missing source: `@l2beat/shared-pure` `Bytes.slice`). -/
def jsSlice (b : List Nat) (s e : Nat) : List Nat :=
  (b.take e).drop s

/-- Modelled from the spec: `Bytes.toNumber()` reads the byte string as one
big-endian integer (missing source: `@l2beat/shared-pure` `Bytes.toNumber`). -/
def beNat (b : List Nat) : Nat :=
  b.foldl (fun acc x => acc * 256 + x) 0

/-- Modelled from the spec: the standard base64 alphabet used by
`ethers` `base64.encode` — the "text-safe" re-encoding of a signing key
(missing source: external `ethers/lib/utils` `base64.encode`). -/
def base64Chars : List Char :=
  "ABCDEFGHIJKLMNOPQRSTUVWXYZabcdefghijklmnopqrstuvwxyz0123456789+/".toList

def base64Char (n : Nat) : Char :=
  base64Chars.getD n 'A'

/-- Modelled from the spec: RFC 4648 base64 with padding, as produced by
`ethers` `base64.encode` (missing source: external `ethers/lib/utils`). -/
def base64Encode : List Nat → String
  | a :: b :: c :: rest =>
      String.mk
        [base64Char (a / 4), base64Char (a % 4 * 16 + b / 16),
         base64Char (b % 16 * 4 + c / 64), base64Char (c % 64)]
        ++ base64Encode rest
  | [a, b] =>
      String.mk
        [base64Char (a / 4), base64Char (a % 4 * 16 + b / 16),
         base64Char (b % 16 * 4), '=']
  | [a] =>
      String.mk [base64Char (a / 4), base64Char (a % 4 * 16), '=', '=']
  | [] => ""

/-! ## ArbitrumDACKeysetHandler.decodeLastEvent -/

/-- Result record of `decodeLastEvent`. -/
structure KeysetResult where
  requiredSignatures : Int
  membersCount : Nat
  blsSignatures : List String
deriving Repr, DecidableEq

/-- An event log, carrying the ABI-decoded `keysetBytes` payload of the
`SetValidKeyset` event (ABI decoding itself is external `ethers` code and the
payload is taken as already extracted). -/
structure Log where
  keysetBytes : List Nat
deriving Repr, DecidableEq

/-- The member-reading loop of `decodeLastEvent`: starting at cursor `head`,
repeat `n` times — read a 2-byte big-endian `size`, advance by 2, read `size`
key bytes, base64-encode them, advance by `size`. Returns the accumulated
signature strings and the final cursor. -/
def membersLoop (b : List Nat) (head : Nat) : Nat → List String × Nat
  | 0 => ([], head)
  | n + 1 =>
      let size := beNat (jsSlice b head (head + 2))
      let sig := base64Encode (jsSlice b (head + 2) (head + 2 + size))
      let rest := membersLoop b (head + 2 + size) n
      (sig :: rest.1, rest.2)

/-- `decodeLastEvent`'s payload decoding: bytes 0–7 big-endian assumed-honest
count, bytes 8–15 big-endian member count, `requiredSignatures =
membersCount - assummedHonestMembers + 1`, members from byte 16 on, and the
final `assert(head === keysetBytes.length)`. -/
def decodeKeysetBytes (b : List Nat) : Except String KeysetResult :=
  let assummedHonestMembers := beNat (jsSlice b 0 8)
  let membersCount := beNat (jsSlice b 8 16)
  let requiredSignatures : Int :=
    (membersCount : Int) - (assummedHonestMembers : Int) + 1
  let loop := membersLoop b 16 membersCount
  if loop.2 = b.length then
    .ok ⟨requiredSignatures, membersCount, loop.1⟩
  else
    .error "Assertion failed"

/-- `decodeLastEvent(events)`: zero logs decode to `{0, 0, []}`; otherwise the
payload of the last log (`events.at(-1)`) is decoded. -/
def decodeLastEvent (events : List Log) : Except String KeysetResult :=
  if events.isEmpty then
    .ok ⟨0, 0, []⟩
  else
    match events.getLast? with
    | some lastEvent => decodeKeysetBytes lastEvent.keysetBytes
    | none => .error "Unexpected lack of event"

/-! ## Keyset payload construction (for round-trip statements) -/

/-- `w`-byte big-endian encoding of `n` (low `8w` bits). -/
def beBytes : Nat → Nat → List Nat
  | 0, _ => []
  | w + 1, n => beBytes w (n / 256) ++ [n % 256]

/-- One member record: 2-byte big-endian length, then the key bytes. -/
def encodeMember (k : List Nat) : List Nat :=
  beBytes 2 k.length ++ k

/-- A keyset payload: 8-byte assumed-honest count, 8-byte member count, then
the member records. -/
def encodeKeyset (ah : Nat) (keys : List (List Nat)) : List Nat :=
  beBytes 8 ah ++ beBytes 8 keys.length ++ (keys.map encodeMember).flatten

/-! ## DiscoveryRunner retry orchestration -/

/-- `MAX_RETRIES` — the default retry ceiling of `discoverWithRetry`. -/
def MAX_RETRIES : Nat := 30

/-- `RETRY_DELAY_MS` — the fixed delay between attempts, in milliseconds. -/
def RETRY_DELAY_MS : Nat := 20000

/-- A JavaScript error value as stored in `err`: either a raw error thrown by
the inner step (stored via `error as Error`), or the first-failure wrapper
`new Error(JSON.stringify(error))`. Error contents are abstracted to a `Nat`
payload identifying the originating inner-step error. -/
inductive RErr where
  | raw (e : Nat)
  | wrapped (e : Nat)
deriving Repr, DecidableEq

/-- Which inner-step error an error value carries (the wrapper keeps the
original error's content in its stringified message). -/
def RErr.payload : RErr → Nat
  | .raw e => e
  | .wrapped e => e

/-- The catch-block update
`err = isError(err) ? (error as Error) : new Error(JSON.stringify(error))`:
when the previously stored `err` is already an `Error` the newly caught error
is stored as-is; otherwise (first failure, `err` still `undefined`) the
caught error is stringify-wrapped. -/
def updateErr (err : Option RErr) (e : Nat) : RErr :=
  match err with
  | some _ => .raw e
  | none => .wrapped e

/-- Observable events of one `discoverWithRetry` call: an invocation of the
inner `discover` step with its attempt index, a `logger.warn` line carrying
the stored error, and one fixed-delay `setTimeout` wait. -/
inductive REvent where
  | attempt (i : Nat)
  | warn (e : RErr)
  | sleep
deriving Repr, DecidableEq

/-- Outcome of `discoverWithRetry`: a returned result, a re-raised error, or
the `assert(err !== undefined)` "Programmer error" path. -/
inductive ROutcome (α : Type) where
  | ok (a : α)
  | thrown (e : RErr)
  | assertionError
deriving Repr, DecidableEq

/-- A `discoverWithRetry` call's outcome together with its event trace. -/
structure RetryResult (α : Type) where
  outcome : ROutcome α
  trace : List REvent
deriving Repr, DecidableEq

/-- The `for (let i = 0; i <= maxRetries; i++)` loop of `discoverWithRetry`;
`fuel` is the number of loop iterations remaining. The inner `discover` step
is an oracle from the attempt index to a result or a raw error payload. On
success the loop breaks immediately; on failure it stores the updated error,
logs one warning and waits once, then continues. -/
def retryLoop (step : Nat → Except Nat α) :
    Nat → Nat → Option RErr → Except (Option RErr) α × List REvent
  | _, 0, err => (.error err, [])
  | i, fuel + 1, err =>
      match step i with
      | .ok a => (.ok a, [.attempt i])
      | .error e =>
          let errNew := updateErr err e
          let rest := retryLoop step (i + 1) fuel (some errNew)
          (rest.1, .attempt i :: .warn errNew :: .sleep :: rest.2)

/-- `DiscoveryRunner.discoverWithRetry`: run the loop for attempt indices
`0..maxRetries`; if no attempt succeeded, re-raise the stored error. -/
def discoverWithRetry (step : Nat → Except Nat α) (maxRetries : Nat) :
    RetryResult α :=
  let loop := retryLoop step 0 (maxRetries + 1) none
  match loop.1 with
  | .ok a => ⟨.ok a, loop.2⟩
  | .error (some e) => ⟨.thrown e, loop.2⟩
  | .error none => ⟨.assertionError, loop.2⟩

/-- The warnings logged in a trace, in order. -/
def warnsOf (tr : List REvent) : List RErr :=
  tr.filterMap fun ev =>
    match ev with
    | .warn e => some e
    | _ => none

/-- The attempt indices of a trace, in order. -/
def attemptsOf (tr : List REvent) : List Nat :=
  tr.filterMap fun ev =>
    match ev with
    | .attempt i => some i
    | _ => none

/-- The number of fixed-delay waits in a trace. -/
def sleepsOf (tr : List REvent) : Nat :=
  tr.countP fun ev =>
    match ev with
    | .sleep => true
    | _ => false

/-- The trace produced by `n` consecutive failing attempts starting at index
`i` with stored error `err`. -/
def failTrace (f : Nat → Nat) : Nat → Nat → Option RErr → List REvent
  | _, 0, _ => []
  | i, n + 1, err =>
      .attempt i :: .warn (updateErr err (f i)) :: .sleep ::
        failTrace f (i + 1) n (some (updateErr err (f i)))

/-- The stored error after `n` consecutive failing attempts starting at index
`i` with stored error `err`. -/
def errAfter (f : Nat → Nat) : Nat → Nat → Option RErr → Option RErr
  | _, 0, err => err
  | i, n + 1, err => errAfter f (i + 1) n (some (updateErr err (f i)))

/-- The error `discoverWithRetry` re-raises when all attempts `0..m` fail
with errors `f 0 .. f m`. -/
def lastErrOf (f : Nat → Nat) (m : Nat) : RErr :=
  if m = 0 then .wrapped (f 0) else .raw (f m)

/-! ## DiscoveryRunner configuration update and run -/

/-- The raw per-project discovery configuration: the fields the runner touches
(`initialAddresses`, `maxAddresses`, `maxDepth`) plus identification
(`name`, `chain`), with the remaining per-project configuration carried
opaquely in `overrides`. -/
structure RawDiscoveryConfig where
  name : String
  chain : String
  initialAddresses : List String
  maxAddresses : Option Nat
  maxDepth : Option Nat
  overrides : List (String × String)
deriving Repr, DecidableEq

/-- `DiscoveryConfig` wraps the raw config, accessible as `config.raw`. -/
structure DiscoveryConfig where
  raw : RawDiscoveryConfig
deriving Repr, DecidableEq

/-- One previously discovered contract, as persisted in the prior output. -/
structure DiscoveredContract where
  address : String
deriving Repr, DecidableEq

/-- Prior run output as returned by `configReader.readDiscovery`. -/
structure DiscoveryOutput where
  contracts : List DiscoveredContract
deriving Repr, DecidableEq

/-- `DiscoveryRunner.updateInitialAddresses`: re-seed `initialAddresses` from
the previous run's persisted output and scale `maxAddresses` (default 200)
and `maxDepth` (default 6) by 3, spreading the rest of the raw config
unchanged. -/
def updateInitialAddresses (readDiscovery : String → String → DiscoveryOutput)
    (chain : String) (config : DiscoveryConfig) : DiscoveryConfig :=
  let discovery := readDiscovery config.raw.name chain
  let initialAddresses := discovery.contracts.map (·.address)
  ⟨{ config.raw with
      initialAddresses := initialAddresses
      maxAddresses := some (config.raw.maxAddresses.getD 200 * 3)
      maxDepth := some (config.raw.maxDepth.getD 6 * 3) }⟩

/-- `DiscoveryRunner.run`: when `injectInitialAddresses` is set, rewrite the
config via `updateInitialAddresses`; then invoke `discoverWithRetry` on it.
The inner per-attempt discovery is the oracle
`step config blockNumber attemptIndex`. -/
def run (readDiscovery : String → String → DiscoveryOutput) (chain : String)
    (step : DiscoveryConfig → Nat → Nat → Except Nat α)
    (projectConfig : DiscoveryConfig) (blockNumber : Nat)
    (injectInitialAddresses : Bool) (maxRetries : Nat) : RetryResult α :=
  let config := if injectInitialAddresses
    then updateInitialAddresses readDiscovery chain projectConfig
    else projectConfig
  discoverWithRetry (step config blockNumber) maxRetries

/-! ## Provider metrics -/

/-- One `ProviderStats` entry: call count and recorded durations. Durations
are idealized from JS floats to `ℚ`. -/
structure StatsEntry where
  count : Nat
  durations : List ℚ
deriving Repr, DecidableEq

/-- `ProviderStats` viewed through its `get(index)` accessor. -/
abbrev ProviderStats : Type := Nat → StatsEntry

/-- `AllProviders.getStats(chain)` result: the three measurement tiers. -/
structure AllProviderStats where
  lowLevelMeasurements : ProviderStats
  cacheMeasurements : ProviderStats
  highLevelMeasurements : ProviderStats

/-- One `gauge.set({chain, method}, value)` call. -/
structure GaugeEmission where
  chain : String
  method : String
  value : ℚ
deriving Repr, DecidableEq

/-- The body of `setProviderGauge`'s loop over
`Object.entries(ProviderMeasurement)`: set the count gauge for method `kv.1`
to `entry.count` and the duration gauge to
`durations.reduce((acc, v) => acc + v) / durations.length`, guarded to 0 when
no durations were recorded. -/
def gaugeStep (stats : ProviderStats) (chain : String)
    (acc : List GaugeEmission × List GaugeEmission) (kv : String × Nat) :
    List GaugeEmission × List GaugeEmission :=
  let entry := stats kv.2
  let avg : ℚ :=
    if 0 < entry.durations.length then
      entry.durations.sum / (entry.durations.length : ℚ)
    else 0
  (acc.1 ++ [⟨chain, kv.1, (entry.count : ℚ)⟩],
   acc.2 ++ [⟨chain, kv.1, avg⟩])

/-- `setProviderGauge`, with `measurements` the association list of method
name to measurement index (`Object.entries(ProviderMeasurement)`). Returns
the count-gauge and duration-gauge emissions, in order. -/
def setProviderGauge (measurements : List (String × Nat))
    (stats : ProviderStats) (chain : String) :
    List GaugeEmission × List GaugeEmission :=
  measurements.foldl (gaugeStep stats chain) ([], [])

/-- The three per-tier gauge pairs set by `setDiscoveryMetrics`. -/
structure DiscoveryMetrics where
  lowLevel : List GaugeEmission × List GaugeEmission
  cache : List GaugeEmission × List GaugeEmission
  highLevel : List GaugeEmission × List GaugeEmission
deriving Repr, DecidableEq

/-- `setDiscoveryMetrics`: apply `setProviderGauge` to each tier's stats. -/
def setDiscoveryMetrics (measurements : List (String × Nat))
    (stats : AllProviderStats) (chain : String) : DiscoveryMetrics :=
  ⟨setProviderGauge measurements stats.lowLevelMeasurements chain,
   setProviderGauge measurements stats.cacheMeasurements chain,
   setProviderGauge measurements stats.highLevelMeasurements chain⟩

/-- The observable steps of `DiscoveryRunner.discover`, in program order. -/
inductive DiscoverEvent where
  | engineDiscover
  | emitMetrics
  | convertOutput
  | flattenSources
deriving Repr, DecidableEq

/-- Result of `DiscoveryRunner.discover`: the converted output, the flattened
sources, the gauge values set, and the order of the steps taken. -/
structure DiscoverRun (α β : Type) where
  discovery : α
  flatSources : β
  metrics : DiscoveryMetrics
  events : List DiscoverEvent

/-- `DiscoveryRunner.discover`: run the engine on the config and block, set
the metrics gauges from the chain's provider stats, convert the engine result
to the output contract (`toDiscoveryOutput`), then flatten the discovered
sources. Engine, converter and flattener are oracles; `events` records the
program order of these steps. -/
def discover (engine : DiscoveryConfig → Nat → γ)
    (toDiscoveryOutput : DiscoveryConfig → Nat → γ → α)
    (flattenDiscoveredSources : γ → β)
    (measurements : List (String × Nat))
    (getStats : String → AllProviderStats)
    (config : DiscoveryConfig) (blockNumber : Nat) : DiscoverRun α β :=
  let result := engine config blockNumber
  let metrics := setDiscoveryMetrics measurements (getStats config.raw.chain)
    config.raw.chain
  let discovery := toDiscoveryOutput config blockNumber result
  let flatSources := flattenDiscoveredSources result
  ⟨discovery, flatSources, metrics,
   [.engineDiscover, .emitMetrics, .convertOutput, .flattenSources]⟩

/-- The arithmetic mean of a duration list, 0 for the empty list. -/
def meanOrZero (l : List ℚ) : ℚ :=
  if l = [] then 0 else l.sum / (l.length : ℚ)

/-! ## Decoder lemmas and claims C1, C4, C5 -/

lemma beNat_append (xs : List Nat) (b : Nat) :
    beNat (xs ++ [b]) = beNat xs * 256 + b := by
  simp [beNat, List.foldl_append]

lemma beBytes_length (w n : Nat) : (beBytes w n).length = w := by
  induction w generalizing n with
  | zero => rfl
  | succ w ih => simp [beBytes, ih]

lemma beNat_beBytes (w n : Nat) : beNat (beBytes w n) = n % 256 ^ w := by
  induction w generalizing n with
  | zero => simp [beBytes, beNat, Nat.mod_one]
  | succ w ih =>
      rw [beBytes, beNat_append, ih, pow_succ, mul_comm (256 ^ w) 256]
      rw [Nat.mod_mul]
      ring

lemma jsSlice_append (pre s : List Nat) (m : Nat) :
    jsSlice (pre ++ s) pre.length (pre.length + m) = s.take m := by
  unfold jsSlice
  rw [List.take_append, List.drop_left]

lemma jsSlice_zero (b : List Nat) (e : Nat) : jsSlice b 0 e = b.take e := by
  simp [jsSlice]

lemma take_exact (l₁ l₂ : List Nat) (n : Nat) (h : l₁.length = n) :
    (l₁ ++ l₂).take n = l₁ := by
  subst h; exact List.take_left l₁ l₂

lemma membersLoop_encode :
    ∀ (keys : List (List Nat)) (pre : List Nat) (h : Nat),
      (∀ k ∈ keys, k.length < 65536) → h = pre.length →
      membersLoop (pre ++ (keys.map encodeMember).flatten) h keys.length
        = (keys.map base64Encode,
           h + ((keys.map encodeMember).flatten).length)
  | [], pre, h, _, hh => by simp [membersLoop]
  | k :: keys, pre, h, hb, hh => by
      subst hh
      have hk : k.length < 65536 := hb k (by simp)
      have hrest : ∀ k2 ∈ keys, k2.length < 65536 := fun k2 hm => hb k2 (by simp [hm])
      have hflat : ((k :: keys).map encodeMember).flatten
          = encodeMember k ++ (keys.map encodeMember).flatten := by
        simp
      rw [hflat]
      have hsizeSlice :
          jsSlice (pre ++ (encodeMember k ++ (keys.map encodeMember).flatten))
              pre.length (pre.length + 2) = beBytes 2 k.length := by
        rw [jsSlice_append]
        unfold encodeMember
        rw [List.append_assoc]
        exact take_exact _ _ 2 (beBytes_length 2 _)
      have hsize :
          beNat (jsSlice (pre ++ (encodeMember k ++ (keys.map encodeMember).flatten))
              pre.length (pre.length + 2)) = k.length := by
        rw [hsizeSlice, beNat_beBytes]
        have h2 : (256 : Nat) ^ 2 = 65536 := by norm_num
        rw [h2]
        exact Nat.mod_eq_of_lt hk
      have hb2 : pre ++ (encodeMember k ++ (keys.map encodeMember).flatten)
          = (pre ++ beBytes 2 k.length) ++ (k ++ (keys.map encodeMember).flatten) := by
        simp [encodeMember]
      have hlen2 : pre.length + 2 = (pre ++ beBytes 2 k.length).length := by
        simp [beBytes_length]
      have hsig :
          jsSlice (pre ++ (encodeMember k ++ (keys.map encodeMember).flatten))
              (pre.length + 2) (pre.length + 2 + k.length) = k := by
        rw [hb2, hlen2, jsSlice_append]
        exact take_exact _ _ k.length rfl
      have hb3 : pre ++ (encodeMember k ++ (keys.map encodeMember).flatten)
          = (pre ++ encodeMember k) ++ (keys.map encodeMember).flatten := by
        simp
      have hlen3 : pre.length + 2 + k.length = (pre ++ encodeMember k).length := by
        simp [encodeMember, beBytes_length]
        omega
      have hrec := membersLoop_encode keys (pre ++ encodeMember k)
        (pre.length + 2 + k.length) hrest hlen3
      rw [← hb3] at hrec
      simp only [List.length_cons, membersLoop, hsize, hsig, hrec]
      simp only [List.map_cons, List.length_append, encodeMember, beBytes_length,
        Prod.mk.injEq]
      exact ⟨trivial, by omega⟩

lemma decode_encodeKeyset (ah : Nat) (keys : List (List Nat))
    (hah : ah < 256 ^ 8) (hmc : keys.length < 256 ^ 8)
    (hkeys : ∀ k ∈ keys, k.length < 65536) :
    decodeKeysetBytes (encodeKeyset ah keys)
      = .ok ⟨(keys.length : Int) - (ah : Int) + 1, keys.length,
             keys.map base64Encode⟩ := by
  have hA : (beBytes 8 ah).length = 8 := beBytes_length 8 ah
  have hM : (beBytes 8 keys.length).length = 8 := beBytes_length 8 _
  have hkeyset : encodeKeyset ah keys
      = beBytes 8 ah ++ (beBytes 8 keys.length ++ (keys.map encodeMember).flatten) := by
    rw [encodeKeyset, List.append_assoc]
  rw [hkeyset]
  have hsl0 : jsSlice (beBytes 8 ah
        ++ (beBytes 8 keys.length ++ (keys.map encodeMember).flatten)) 0 8
      = beBytes 8 ah := by
    rw [jsSlice_zero]
    exact take_exact _ _ 8 hA
  have h1 := jsSlice_append (beBytes 8 ah)
    (beBytes 8 keys.length ++ (keys.map encodeMember).flatten) 8
  rw [hA] at h1
  norm_num at h1
  have hsl8 : jsSlice (beBytes 8 ah
        ++ (beBytes 8 keys.length ++ (keys.map encodeMember).flatten)) 8 16
      = beBytes 8 keys.length := by
    rw [h1]
    exact take_exact _ _ 8 hM
  have hmem := membersLoop_encode keys (beBytes 8 ah ++ beBytes 8 keys.length)
    16 hkeys (by simp [hA, hM])
  rw [List.append_assoc] at hmem
  have hlen : (beBytes 8 ah
        ++ (beBytes 8 keys.length ++ (keys.map encodeMember).flatten)).length
      = 16 + ((keys.map encodeMember).flatten).length := by
    simp [hA, hM]
    omega
  simp only [decodeKeysetBytes, hsl0, hsl8, beNat_beBytes,
    Nat.mod_eq_of_lt hah, Nat.mod_eq_of_lt hmc, hmem, hlen]
  simp

lemma decodeLastEvent_ne_nil (events : List Log) (h : events ≠ []) :
    decodeLastEvent events
      = decodeKeysetBytes ((events.getLast h).keysetBytes) := by
  unfold decodeLastEvent
  rw [if_neg (by simpa using h)]
  rw [List.getLast?_eq_getLast_of_ne_nil h]

lemma decodeKeysetBytes_ok_fields (b : List Nat) (r : KeysetResult)
    (h : decodeKeysetBytes b = .ok r) :
    r.membersCount = beNat (jsSlice b 8 16) ∧
    r.requiredSignatures
      = (beNat (jsSlice b 8 16) : Int) - (beNat (jsSlice b 0 8) : Int) + 1 := by
  simp only [decodeKeysetBytes] at h
  split at h
  · cases h
    exact ⟨rfl, rfl⟩
  · cases h

lemma membersLoop_snd_ge (b : List Nat) :
    ∀ (n head : Nat), head + 2 * n ≤ (membersLoop b head n).2
  | 0, head => Nat.le_refl _
  | n + 1, head => by
      simp only [membersLoop]
      have := membersLoop_snd_ge b n (head + 2 + beNat (jsSlice b head (head + 2)))
      omega

lemma decodeKeysetBytes_mismatch (b : List Nat)
    (h : (membersLoop b 16 (beNat (jsSlice b 8 16))).2 ≠ b.length) :
    decodeKeysetBytes b = .error "Assertion failed" := by
  unfold decodeKeysetBytes
  rw [if_neg h]

set_option maxRecDepth 10000 in
/-- Claim C1: for every non-empty list of event logs, `decodeLastEvent`
decodes only the last log in the list; the decoded `membersCount` is the
big-endian integer in payload bytes 8–15, the assumed-honest count the one
in bytes 0–7, `requiredSignatures = membersCount - assumedHonest + 1`, and
from byte 16 it parses `membersCount` members — each a 2-byte big-endian
length followed by that many key bytes re-encoded to base64, the cursor
advancing by `2 + length` — as witnessed by the encode/decode round trip; in
particular a payload with assumedHonest = 2, membersCount = 3 and three
48-byte keys decodes to `requiredSignatures = 2`, `membersCount = 3` and
three re-encoded signer strings. -/
theorem C1_keyset_decodes_last_event :
    (∀ (events : List Log) (h : events ≠ []),
        decodeLastEvent events
          = decodeKeysetBytes ((events.getLast h).keysetBytes)) ∧
    (∀ (b : List Nat) (r : KeysetResult), decodeKeysetBytes b = .ok r →
        r.membersCount = beNat (jsSlice b 8 16) ∧
        r.requiredSignatures
          = (beNat (jsSlice b 8 16) : Int) - (beNat (jsSlice b 0 8) : Int) + 1) ∧
    (∀ (ah : Nat) (keys : List (List Nat)),
        ah < 256 ^ 8 → keys.length < 256 ^ 8 →
        (∀ k ∈ keys, k.length < 65536) →
        decodeKeysetBytes (encodeKeyset ah keys)
          = .ok ⟨(keys.length : Int) - (ah : Int) + 1, keys.length,
                 keys.map base64Encode⟩) ∧
    decodeLastEvent
        [⟨encodeKeyset 5 [[1, 2, 3]]⟩,
         ⟨encodeKeyset 2
            [List.replicate 48 0, List.replicate 48 0, List.replicate 48 0]⟩]
      = .ok ⟨2, 3,
          [base64Encode (List.replicate 48 0),
           base64Encode (List.replicate 48 0),
           base64Encode (List.replicate 48 0)]⟩ := by
  refine ⟨decodeLastEvent_ne_nil, decodeKeysetBytes_ok_fields,
    decode_encodeKeyset, ?_⟩
  rfl

theorem C1_witness :
    decodeKeysetBytes (encodeKeyset 1 [[7, 8]])
      = .ok ⟨1, 1, [base64Encode [7, 8]]⟩ := by
  simpa using C1_keyset_decodes_last_event.2.2.1 1 [[7, 8]]
    (by norm_num) (by norm_num) (by simp)

/-- Claim C4: for an empty list of event logs the keyset handler does not
error but returns `{requiredSignatures: 0, membersCount: 0, signers: []}`
("not yet configured"). -/
theorem C4_empty_logs_not_configured :
    decodeLastEvent [] = .ok ⟨0, 0, []⟩ := rfl

/-- Claim C5: a successful decode requires the cursor to land exactly on the
payload length after `membersCount` members; whenever it does not — in
particular when the declared member count or the member lengths overrun the
buffer, which forces the final cursor past the end — the decode raises the
format ("Assertion failed") error instead of returning a truncated or padded
result. -/
theorem C5_cursor_mismatch_is_decode_error :
    (∀ (b : List Nat) (r : KeysetResult), decodeKeysetBytes b = .ok r →
        (membersLoop b 16 (beNat (jsSlice b 8 16))).2 = b.length) ∧
    (∀ b : List Nat,
        (membersLoop b 16 (beNat (jsSlice b 8 16))).2 ≠ b.length →
        decodeKeysetBytes b = .error "Assertion failed") ∧
    (∀ b : List Nat, b.length < 16 + 2 * beNat (jsSlice b 8 16) →
        decodeKeysetBytes b = .error "Assertion failed") ∧
    decodeLastEvent [⟨beBytes 8 2 ++ beBytes 8 3⟩]
      = .error "Assertion failed" := by
  have hover : ∀ b : List Nat, b.length < 16 + 2 * beNat (jsSlice b 8 16) →
      decodeKeysetBytes b = .error "Assertion failed" := by
    intro b hb
    apply decodeKeysetBytes_mismatch
    have := membersLoop_snd_ge b (beNat (jsSlice b 8 16)) 16
    omega
  refine ⟨?_, fun b => decodeKeysetBytes_mismatch b, hover, ?_⟩
  · intro b r h
    simp only [decodeKeysetBytes] at h
    split at h
    · assumption
    · cases h
  · rfl

theorem C5_witness :
    decodeKeysetBytes (beBytes 8 2 ++ beBytes 8 3)
      = .error "Assertion failed" :=
  C5_cursor_mismatch_is_decode_error.2.2.1 (beBytes 8 2 ++ beBytes 8 3)
    (by decide)


/-! ## Retry lemmas and claims C2, C3, C8, C10 -/

lemma retryLoop_all_fail (step : Nat → Except Nat α) (f : Nat → Nat) :
    ∀ (n i : Nat) (err : Option RErr),
      (∀ j, j < n → step (i + j) = .error (f (i + j))) →
      retryLoop step i n err
        = (.error (errAfter f i n err), failTrace f i n err)
  | 0, i, err, _ => rfl
  | n + 1, i, err, hf => by
      have h0 : step i = .error (f i) := by simpa using hf 0 (Nat.succ_pos n)
      have hrec := retryLoop_all_fail step f n (i + 1)
        (some (updateErr err (f i)))
        (fun j hj => by
          rw [show i + 1 + j = i + (j + 1) by omega]
          exact hf (j + 1) (by omega))
      simp only [retryLoop, h0, hrec, failTrace, errAfter]

lemma retryLoop_succeeds (step : Nat → Except Nat α) (f : Nat → Nat) (a : α) :
    ∀ (k i fuel : Nat) (err : Option RErr),
      k < fuel →
      (∀ j, j < k → step (i + j) = .error (f (i + j))) →
      step (i + k) = .ok a →
      retryLoop step i fuel err
        = (.ok a, failTrace f i k err ++ [.attempt (i + k)])
  | 0, i, fuel, err, hlt, _, hok => by
      obtain ⟨m, rfl⟩ : ∃ m, fuel = m + 1 := ⟨fuel - 1, by omega⟩
      have hok0 : step i = .ok a := by simpa using hok
      simp [retryLoop, hok0, failTrace]
  | k + 1, i, fuel, err, hlt, hf, hok => by
      obtain ⟨m, rfl⟩ : ∃ m, fuel = m + 1 := ⟨fuel - 1, by omega⟩
      have h0 : step i = .error (f i) := by simpa using hf 0 (by omega)
      have hrec := retryLoop_succeeds step f a k (i + 1) m
        (some (updateErr err (f i)))
        (by omega)
        (fun j hj => by
          rw [show i + 1 + j = i + (j + 1) by omega]
          exact hf (j + 1) (by omega))
        (by rw [show i + 1 + k = i + (k + 1) by omega]; exact hok)
      simp only [retryLoop, h0, hrec, failTrace]
      rw [show i + 1 + k = i + (k + 1) by omega]
      simp

lemma warnsOf_append (t₁ t₂ : List REvent) :
    warnsOf (t₁ ++ t₂) = warnsOf t₁ ++ warnsOf t₂ := by
  simp [warnsOf, List.filterMap_append]

lemma attemptsOf_append (t₁ t₂ : List REvent) :
    attemptsOf (t₁ ++ t₂) = attemptsOf t₁ ++ attemptsOf t₂ := by
  simp [attemptsOf, List.filterMap_append]

lemma sleepsOf_append (t₁ t₂ : List REvent) :
    sleepsOf (t₁ ++ t₂) = sleepsOf t₁ + sleepsOf t₂ := by
  simp [sleepsOf, List.countP_append]

lemma payload_updateErr (err : Option RErr) (e : Nat) :
    (updateErr err e).payload = e := by
  cases err <;> rfl

lemma warnsOf_failTrace (f : Nat → Nat) :
    ∀ (n i : Nat) (err : Option RErr),
      (warnsOf (failTrace f i n err)).map RErr.payload
        = (List.range' i n).map f
  | 0, _, _ => rfl
  | n + 1, i, err => by
      simp only [failTrace, warnsOf, List.filterMap_cons]
      simp only [warnsOf] at warnsOf_failTrace
      rw [List.range'_succ]
      simp [warnsOf_failTrace f n (i + 1), payload_updateErr]

lemma attemptsOf_failTrace (f : Nat → Nat) :
    ∀ (n i : Nat) (err : Option RErr),
      attemptsOf (failTrace f i n err) = List.range' i n
  | 0, _, _ => rfl
  | n + 1, i, err => by
      simp only [failTrace, attemptsOf, List.filterMap_cons]
      simp only [attemptsOf] at attemptsOf_failTrace
      rw [List.range'_succ]
      simp [attemptsOf_failTrace f n (i + 1)]

lemma sleepsOf_failTrace (f : Nat → Nat) :
    ∀ (n i : Nat) (err : Option RErr),
      sleepsOf (failTrace f i n err) = n
  | 0, _, _ => rfl
  | n + 1, i, err => by
      simp only [failTrace, sleepsOf, List.countP_cons]
      simp only [sleepsOf] at sleepsOf_failTrace
      simp [sleepsOf_failTrace f n (i + 1)]

lemma errAfter_some (f : Nat → Nat) :
    ∀ (n i : Nat) (e : RErr),
      errAfter f i (n + 1) (some e) = some (.raw (f (i + n)))
  | 0, i, e => by simp [errAfter, updateErr]
  | n + 1, i, e => by
      show errAfter f (i + 1) (n + 1) (some (updateErr (some e) (f i))) = _
      rw [updateErr, errAfter_some f n (i + 1)]
      rw [show i + 1 + n = i + (n + 1) by omega]

lemma errAfter_none (f : Nat → Nat) (n i : Nat) :
    errAfter f i (n + 1) none
      = some (if n = 0 then RErr.wrapped (f i) else RErr.raw (f (i + n))) := by
  cases n with
  | zero => simp [errAfter, updateErr]
  | succ m =>
      show errAfter f (i + 1) (m + 1) (some (updateErr none (f i))) = _
      rw [errAfter_some f m (i + 1)]
      rw [show i + 1 + m = i + (m + 1) by omega]
      simp


lemma discoverWithRetry_succeeds (step : Nat → Except Nat α) (f : Nat → Nat)
    (a : α) (maxRetries k : Nat) (hk : k ≤ maxRetries)
    (hfail : ∀ j, j < k → step j = .error (f j)) (hok : step k = .ok a) :
    discoverWithRetry step maxRetries
      = ⟨.ok a, failTrace f 0 k none ++ [.attempt k]⟩ := by
  have hloop := retryLoop_succeeds step f a k 0 (maxRetries + 1) none
    (by omega) (fun j hj => by simpa using hfail j hj) (by simpa using hok)
  simp [discoverWithRetry, hloop]

lemma discoverWithRetry_all_fail (step : Nat → Except Nat α) (f : Nat → Nat)
    (maxRetries : Nat) (hfail : ∀ i, step i = .error (f i)) :
    discoverWithRetry step maxRetries
      = ⟨.thrown (lastErrOf f maxRetries),
         failTrace f 0 (maxRetries + 1) none⟩ := by
  have hloop := retryLoop_all_fail step f (maxRetries + 1) 0 none
    (fun j _ => by simpa using hfail j)
  have herr := errAfter_none f maxRetries 0
  rw [Nat.zero_add] at herr
  simp [discoverWithRetry, hloop, herr, lastErrOf]

/-- Claim C2: if the inner discovery step fails on attempts `0..k-1` and succeeds
on attempt `k` (so on the 1-based attempt `N = k+1 ≤ maxRetries + 1`),
`discoverWithRetry` returns the successful result, logs exactly `k` warnings
— the `j`-th carrying the `j`-th attempt's error — and surfaces no error. -/
theorem C2_retry_success_after_failures (step : Nat → Except Nat α)
    (f : Nat → Nat) (a : α) (maxRetries k : Nat) (hk : k ≤ maxRetries)
    (hfail : ∀ j, j < k → step j = .error (f j)) (hok : step k = .ok a) :
    (discoverWithRetry step maxRetries).outcome = .ok a ∧
    (warnsOf (discoverWithRetry step maxRetries).trace).length = k ∧
    (warnsOf (discoverWithRetry step maxRetries).trace).map RErr.payload
      = (List.range k).map f := by
  rw [discoverWithRetry_succeeds step f a maxRetries k hk hfail hok]
  have hw := warnsOf_failTrace f k 0 none
  refine ⟨rfl, ?_, ?_⟩
  · have := congrArg List.length hw
    simpa [warnsOf_append, warnsOf] using this
  · rw [List.range_eq_range']
    simpa [warnsOf_append, warnsOf] using hw

theorem C2_witness :
    (discoverWithRetry
        (fun i => if i < 2 then Except.error (10 * i + 3) else Except.ok 42)
        4).outcome = .ok 42 ∧
    (warnsOf (discoverWithRetry
        (fun i => if i < 2 then Except.error (10 * i + 3) else Except.ok 42)
        4).trace).length = 2 ∧
    (warnsOf (discoverWithRetry
        (fun i => if i < 2 then Except.error (10 * i + 3) else Except.ok 42)
        4).trace).map RErr.payload
      = (List.range 2).map (fun i => 10 * i + 3) :=
  C2_retry_success_after_failures
    (fun i => if i < 2 then Except.error (10 * i + 3) else Except.ok 42)
    (fun i => 10 * i + 3) 42 4 2 (by omega) (by decide) (by decide)

/-- Claim C3: if every attempt fails, `discoverWithRetry` exhausts attempts `0..m`
and re-raises the stored error, which carries the last attempt's error; it
never returns a result. -/
theorem C3_retry_exhaustion_rethrows_last (step : Nat → Except Nat α)
    (f : Nat → Nat) (m : Nat) (hfail : ∀ i, step i = .error (f i)) :
    (discoverWithRetry step m).outcome = .thrown (lastErrOf f m) ∧
    (lastErrOf f m).payload = f m ∧
    attemptsOf (discoverWithRetry step m).trace = List.range (m + 1) ∧
    ∀ a, (discoverWithRetry step m).outcome ≠ .ok a := by
  rw [discoverWithRetry_all_fail step f m hfail]
  refine ⟨rfl, ?_, ?_, ?_⟩
  · by_cases h : m = 0
    · subst h; rfl
    · simp [lastErrOf, h, RErr.payload]
  · rw [attemptsOf_failTrace f (m + 1) 0, List.range_eq_range']
  · intro a h
    cases h

theorem C3_witness :
    (discoverWithRetry (fun _ => (Except.error 9 : Except Nat Nat)) 2).outcome
        = .thrown (lastErrOf (fun _ => 9) 2) ∧
    (lastErrOf (fun _ => (9 : Nat)) 2).payload = 9 ∧
    attemptsOf (discoverWithRetry (fun _ => (Except.error 9 : Except Nat Nat))
        2).trace = List.range 3 ∧
    (discoverWithRetry (fun _ => (Except.error 9 : Except Nat Nat))
        2).outcome ≠ .ok 0 := by
  have h := C3_retry_exhaustion_rethrows_last
    (fun _ => (Except.error 9 : Except Nat Nat)) (fun _ => 9) 2 (fun _ => rfl)
  exact ⟨h.1, h.2.1, h.2.2.1, h.2.2.2 0⟩

/-- Claim C10: with `maxRetries = m` and an inner step failing on every attempt,
`discoverWithRetry` invokes the step exactly `m + 1` times, for the attempt
indices `0..m` in order and no others, logs one warning and waits one delay
after each of the `m + 1` failures, and then throws. -/
theorem C10_retry_budget_exhaustion (step : Nat → Except Nat α)
    (f : Nat → Nat) (m : Nat) (hfail : ∀ i, step i = .error (f i)) :
    attemptsOf (discoverWithRetry step m).trace = List.range (m + 1) ∧
    (warnsOf (discoverWithRetry step m).trace).length = m + 1 ∧
    (warnsOf (discoverWithRetry step m).trace).map RErr.payload
      = (List.range (m + 1)).map f ∧
    sleepsOf (discoverWithRetry step m).trace = m + 1 ∧
    (discoverWithRetry step m).outcome = .thrown (lastErrOf f m) := by
  rw [discoverWithRetry_all_fail step f m hfail]
  have hw := warnsOf_failTrace f (m + 1) 0 none
  refine ⟨?_, ?_, ?_, ?_, rfl⟩
  · rw [attemptsOf_failTrace f (m + 1) 0, List.range_eq_range']
  · have := congrArg List.length hw
    simpa using this
  · rw [List.range_eq_range']
    exact hw
  · exact sleepsOf_failTrace f (m + 1) 0 none

theorem C10_witness :
    attemptsOf (discoverWithRetry
        (fun i => (Except.error (i + 4) : Except Nat Nat)) 1).trace
      = List.range 2 ∧
    (warnsOf (discoverWithRetry
        (fun i => (Except.error (i + 4) : Except Nat Nat)) 1).trace).length
      = 2 ∧
    (warnsOf (discoverWithRetry
        (fun i => (Except.error (i + 4) : Except Nat Nat))
        1).trace).map RErr.payload = (List.range 2).map (fun i => i + 4) ∧
    sleepsOf (discoverWithRetry
        (fun i => (Except.error (i + 4) : Except Nat Nat)) 1).trace = 2 ∧
    (discoverWithRetry (fun i => (Except.error (i + 4) : Except Nat Nat))
        1).outcome = .thrown (lastErrOf (fun i => i + 4) 1) :=
  C10_retry_budget_exhaustion (fun i => Except.error (i + 4))
    (fun i => i + 4) 1 (fun _ => rfl)

/-- Claim C8 counterexample: with `maxRetries = 1` and an always-failing step, the
code waits the fixed delay after the final failed attempt as well — the trace
ends in a `sleep` that follows the last attempt, and there are 2 delays for 2
attempts, where a delay-only-between-attempts loop would produce 1. -/
theorem C8_counterexample :
    (discoverWithRetry (fun _ => (Except.error 7 : Except Nat Nat)) 1).trace
      = [.attempt 0, .warn (.wrapped 7), .sleep,
         .attempt 1, .warn (.raw 7), .sleep] ∧
    (discoverWithRetry (fun _ => (Except.error 7 : Except Nat Nat))
        1).trace.getLast? = some .sleep ∧
    sleepsOf (discoverWithRetry (fun _ => (Except.error 7 : Except Nat Nat))
        1).trace = 2 ∧
    (discoverWithRetry (fun _ => (Except.error 7 : Except Nat Nat)) 1).outcome
      = .thrown (.raw 7) :=
  ⟨rfl, rfl, rfl, rfl⟩

/-- Claim C8 as amended: the fixed-delay wait never follows a successful attempt (on
success the trace ends with that attempt), but it does follow every failed
attempt, including the final one before the error is re-raised: `k` failures
before a success give `k` delays, and all `m + 1` attempts failing give
`m + 1` delays. -/
theorem C8_amended_delay_after_each_failure (step : Nat → Except Nat α)
    (f : Nat → Nat) (a : α) (maxRetries k : Nat) (hk : k ≤ maxRetries)
    (hfail : ∀ j, j < k → step j = .error (f j)) (hok : step k = .ok a) :
    sleepsOf (discoverWithRetry step maxRetries).trace = k ∧
    (discoverWithRetry step maxRetries).trace.getLast? = some (.attempt k) ∧
    ∀ (step2 : Nat → Except Nat α) (f2 : Nat → Nat),
      (∀ i, step2 i = .error (f2 i)) →
      sleepsOf (discoverWithRetry step2 maxRetries).trace = maxRetries + 1 := by
  rw [discoverWithRetry_succeeds step f a maxRetries k hk hfail hok]
  refine ⟨?_, ?_, ?_⟩
  · rw [sleepsOf_append, sleepsOf_failTrace f k 0 none]
    rfl
  · exact List.getLast?_concat _
  · intro step2 f2 hfail2
    rw [discoverWithRetry_all_fail step2 f2 maxRetries hfail2]
    exact sleepsOf_failTrace f2 (maxRetries + 1) 0 none

theorem C8_amended_witness :
    sleepsOf (discoverWithRetry
        (fun i => if i < 1 then Except.error (i + 2) else Except.ok 5)
        3).trace = 1 ∧
    (discoverWithRetry
        (fun i => if i < 1 then Except.error (i + 2) else Except.ok 5)
        3).trace.getLast? = some (.attempt 1) ∧
    sleepsOf (discoverWithRetry (fun _ => (Except.error 6 : Except Nat Nat))
        3).trace = 4 := by
  have h := C8_amended_delay_after_each_failure
    (fun i => if i < 1 then Except.error (i + 2) else Except.ok 5)
    (fun i => i + 2) 5 3 1 (by omega) (by decide) (by decide)
  exact ⟨h.1, h.2.1, h.2.2 (fun _ => Except.error 6) (fun _ => 6) (fun _ => rfl)⟩

/-! ## Metrics lemmas and claims C6, C7, C9 -/

lemma gaugeStep_avg (stats : ProviderStats) (chain : String)
    (acc : List GaugeEmission × List GaugeEmission) (kv : String × Nat) :
    gaugeStep stats chain acc kv
      = (acc.1 ++ [⟨chain, kv.1, ((stats kv.2).count : ℚ)⟩],
         acc.2 ++ [⟨chain, kv.1, meanOrZero (stats kv.2).durations⟩]) := by
  unfold gaugeStep meanOrZero
  rcases h : (stats kv.2).durations with _ | ⟨d, l⟩ <;> simp [h]

lemma setProviderGauge_foldl (stats : ProviderStats) (chain : String) :
    ∀ (measurements : List (String × Nat))
      (acc : List GaugeEmission × List GaugeEmission),
      measurements.foldl (gaugeStep stats chain) acc
        = (acc.1 ++ measurements.map (fun kv =>
              ⟨chain, kv.1, ((stats kv.2).count : ℚ)⟩),
           acc.2 ++ measurements.map (fun kv =>
              ⟨chain, kv.1, meanOrZero (stats kv.2).durations⟩))
  | [], acc => by simp
  | kv :: rest, acc => by
      rw [List.foldl_cons, gaugeStep_avg,
        setProviderGauge_foldl stats chain rest]
      simp

/-- Claim C6: with initial-address injection enabled, `run` invokes discovery on
the config produced by `updateInitialAddresses`, whose `initialAddresses`
are exactly the addresses of the contracts in the previous run's output as
read by `readDiscovery`, and whose `maxAddresses` and `maxDepth` are the
configured (or default 200 / 6) values scaled by 3. -/
theorem C6_initial_address_injection {α : Type}
    (readDiscovery : String → String → DiscoveryOutput) (chain : String)
    (step : DiscoveryConfig → Nat → Nat → Except Nat α)
    (cfg : DiscoveryConfig) (blockNumber maxRetries : Nat) :
    run readDiscovery chain step cfg blockNumber true maxRetries
      = discoverWithRetry
          (step (updateInitialAddresses readDiscovery chain cfg) blockNumber)
          maxRetries ∧
    (updateInitialAddresses readDiscovery chain cfg).raw.initialAddresses
      = (readDiscovery cfg.raw.name chain).contracts.map (·.address) ∧
    (updateInitialAddresses readDiscovery chain cfg).raw.maxAddresses
      = some (cfg.raw.maxAddresses.getD 200 * 3) ∧
    (updateInitialAddresses readDiscovery chain cfg).raw.maxDepth
      = some (cfg.raw.maxDepth.getD 6 * 3) :=
  ⟨rfl, rfl, rfl, rfl⟩

/-- Claim C9: `updateInitialAddresses` changes only `initialAddresses`,
`maxAddresses` and `maxDepth`; every other raw-config field is carried into
the returned `DiscoveryConfig` unchanged. -/
theorem C9_update_preserves_other_fields
    (readDiscovery : String → String → DiscoveryOutput) (chain : String)
    (cfg : DiscoveryConfig) :
    (updateInitialAddresses readDiscovery chain cfg).raw.name
      = cfg.raw.name ∧
    (updateInitialAddresses readDiscovery chain cfg).raw.chain
      = cfg.raw.chain ∧
    (updateInitialAddresses readDiscovery chain cfg).raw.overrides
      = cfg.raw.overrides :=
  ⟨rfl, rfl, rfl⟩

/-- Claim C7: for every tier's stats and every measured method, `setProviderGauge`
emits a call-count gauge value equal to the recorded count and a duration
gauge value equal to the arithmetic mean of the recorded durations — 0 when
none were recorded —, `discover` sets exactly these gauges for the three
tiers, and it emits the metrics before converting the graph to the output
contract. -/
theorem C7_metrics_emission {α β γ : Type}
    (engine : DiscoveryConfig → Nat → γ)
    (toDiscoveryOutput : DiscoveryConfig → Nat → γ → α)
    (flattenDiscoveredSources : γ → β)
    (measurements : List (String × Nat))
    (getStats : String → AllProviderStats)
    (config : DiscoveryConfig) (blockNumber : Nat)
    (stats : ProviderStats) (chain : String) :
    (setProviderGauge measurements stats chain).1
      = measurements.map (fun kv =>
          ⟨chain, kv.1, ((stats kv.2).count : ℚ)⟩) ∧
    (setProviderGauge measurements stats chain).2
      = measurements.map (fun kv =>
          ⟨chain, kv.1, meanOrZero (stats kv.2).durations⟩) ∧
    meanOrZero [] = 0 ∧
    (discover engine toDiscoveryOutput flattenDiscoveredSources measurements
        getStats config blockNumber).metrics
      = setDiscoveryMetrics measurements (getStats config.raw.chain)
          config.raw.chain ∧
    (discover engine toDiscoveryOutput flattenDiscoveredSources measurements
        getStats config blockNumber).events
      = [.engineDiscover, .emitMetrics, .convertOutput, .flattenSources] ∧
    (discover engine toDiscoveryOutput flattenDiscoveredSources measurements
        getStats config blockNumber).events.indexOf DiscoverEvent.emitMetrics
      < (discover engine toDiscoveryOutput flattenDiscoveredSources
          measurements getStats config blockNumber).events.indexOf
          DiscoverEvent.convertOutput := by
  have h := setProviderGauge_foldl stats chain measurements ([], [])
  refine ⟨?_, ?_, rfl, rfl, rfl, Nat.one_lt_two⟩
  · rw [setProviderGauge, h]
    simp
  · rw [setProviderGauge, h]
    simp


end L2beat
